import Mathlib

/-!
Verification of the CutMix augmentation callback
(`src/my_callbacks/cutmix_callback.py`).

The Python module is embedded shallowly:

* tensors become `Tensor` (a shape together with row-major flat data;
  rational numbers stand for the floating-point entries),
* the mutable batch dictionary `state.input` becomes an association list
  threaded through the functions,
* the random draws of a batch (the Beta sample, the `torch.randperm`
  output, and per field the value of `np.sqrt(1. - lam)` together with the
  `np.random.randint` centers) become explicit `Draws` inputs; theorems
  that depend on a draw being a genuine square root or a genuine
  permutation state that as a hypothesis,
* Python exceptions become `Except` values.
-/

set_option maxRecDepth 10000

/-- A tensor: its shape and its entries in row-major order. -/
structure Tensor where
  shape : List ℕ
  data : List ℚ
deriving DecidableEq

/-- The exceptions the Python code can raise while mixing a batch. -/
inductive MixErr where
  /-- the bare `raise Exception` in `rand_bbox` (rank neither 3 nor 4) -/
  | shapeError
  /-- too many indices: a 4-index slice applied to a lower-rank tensor -/
  | indexError
  /-- a field name missing from the batch dictionary -/
  | keyError
  /-- `np.random.randint` called on an empty range (`W = 0` or `H = 0`) -/
  | valueError
deriving DecidableEq

/-- The batch dictionary `state.input`: field names mapped to tensors. -/
abbrev Batch := List (String × Tensor)

/-- `np.clip(x, lo, hi) = np.minimum(hi, np.maximum(x, lo))`. -/
def clip (x lo hi : ℤ) : ℤ := min hi (max lo x)

/-- `np.int(q)`: the C-style cast of a float to an integer, truncating
toward zero. -/
def npInt (q : ℚ) : ℤ := Int.tdiv q.num (q.den : ℤ)

/-- The spatial extent picked by `rand_bbox`: `W = size[2], H = size[3]`
for rank 4, `W = size[1], H = size[2]` for rank 3, no value otherwise. -/
def getWH (size : List ℕ) : Option (ℕ × ℕ) :=
  if size.length = 4 then some (size.getD 2 0, size.getD 3 0)
  else if size.length = 3 then some (size.getD 1 0, size.getD 2 0)
  else none

/-- `rand_bbox(size, lam)` from the source.  `cutRat` stands for the value
of `cut_rat = np.sqrt(1. - lam)` (the only way `lam` is used), and
`cx`, `cy` stand for the values drawn by `np.random.randint(W)` and
`np.random.randint(H)`; `randint` raises `ValueError` on an empty range,
i.e. when the bound is zero. -/
def rand_bbox (size : List ℕ) (cutRat : ℚ) (cx cy : ℕ) :
    Except MixErr (ℤ × ℤ × ℤ × ℤ) :=
  match getWH size with
  | none => .error .shapeError
  | some (W, H) =>
    if W = 0 then .error .valueError
    else if H = 0 then .error .valueError
    else
      let cut_w : ℤ := npInt ((W : ℚ) * cutRat)
      let cut_h : ℤ := npInt ((H : ℚ) * cutRat)
      let bbx1 := clip ((cx : ℤ) - cut_w.fdiv 2) 0 (W : ℤ)
      let bby1 := clip ((cy : ℤ) - cut_h.fdiv 2) 0 (H : ℤ)
      let bbx2 := clip ((cx : ℤ) + cut_w.fdiv 2) 0 (W : ℤ)
      let bby2 := clip ((cy : ℤ) + cut_h.fdiv 2) 0 (H : ℤ)
      .ok (bbx1, bby1, bbx2, bby2)

/-- The effect of `t[:, :, x1:x2, y1:y2] = t[index, :, x1:x2, y1:y2]` on a
tensor of rank at least 4.  All reads happen on the pre-assignment data
(advanced indexing materialises the right-hand side first).  Position `p`
of the flat data has multi-index components
`i0 = p / stride0`, `i2 = p / stride2 % shape[2]`, `i3 = p / stride3 % shape[3]`,
and inside the box the value is taken from the same position of row
`index[i0]`. -/
def splice4 (t : Tensor) (index : List ℕ) (x1 y1 x2 y2 : ℕ) : Tensor :=
  let s := t.shape
  let stride0 := (s.drop 1).prod
  let stride2 := (s.drop 3).prod
  let stride3 := (s.drop 4).prod
  { t with
    data := t.data.mapIdx (fun p v =>
      let i0 := p / stride0
      let i2 := p / stride2 % s.getD 2 0
      let i3 := p / stride3 % s.getD 3 0
      if x1 ≤ i2 ∧ i2 < x2 ∧ y1 ≤ i3 ∧ i3 < y2 then
        t.data.getD (p % stride0 + index.getD i0 0 * stride0) 0
      else v) }

/-- The slice-assignment line of `on_batch_start`.  Indexing with four
index expressions raises `IndexError` when the tensor has rank below 4. -/
def sliceAssign (t : Tensor) (index : List ℕ) (x1 y1 x2 y2 : ℤ) :
    Except MixErr Tensor :=
  if t.shape.length < 4 then .error .indexError
  else .ok (splice4 t index x1.toNat y1.toNat x2.toNat y2.toNat)

/-- `self.lam = 1 - ((bbx2 - bbx1) * (bby2 - bby1) / (size[-1] * size[-2]))`. -/
def recompute_lam (x1 y1 x2 y2 : ℤ) (d1 d2 : ℕ) : ℚ :=
  1 - (((x2 - x1) * (y2 - y1) : ℤ) : ℚ) / ((d1 : ℚ) * (d2 : ℚ))

/-- A torch index tensor: its values and the device it lives on. -/
structure IdxTensor where
  vals : List ℕ
  device : String
deriving DecidableEq

/-- `Tensor.to(device)`: returns a tensor on the target device and never
mutates the receiver. -/
def idx_to (t : IdxTensor) (dev : String) : IdxTensor :=
  { vals := t.vals, device := dev }

/-- The mutable state of a `CutMixCallback` object. -/
structure CutMixCallback where
  fields : List String
  alpha : ℚ
  on_train_only : Bool
  lam : ℚ
  index : Option IdxTensor
  is_needed : Bool
deriving DecidableEq

/-- `CutMixCallback.__init__`: the two asserts, then the field
initialisation (`lam = 1`, `index = None`, `is_needed = True`). -/
def construct (fields : List String) (alpha : ℚ) (on_train_only : Bool) :
    Except String CutMixCallback :=
  if fields.length > 0 then
    if alpha ≥ 0 then
      .ok { fields := fields, alpha := alpha, on_train_only := on_train_only,
            lam := 1, index := none, is_needed := true }
    else .error "alpha must be>=0"
  else .error "At least one field for MixupCallback is required"

/-- `on_loader_start`: `is_needed = not on_train_only or
loader_name.startswith("train")`. -/
def on_loader_start (cb : CutMixCallback) (loader_name : String) :
    CutMixCallback :=
  { cb with is_needed := !cb.on_train_only || loader_name.startsWith "train" }

/-- The random draws consumed by one `on_batch_start` call: the
`np.random.beta(alpha, alpha)` sample, the `torch.randperm` output, and for
each field the value of `np.sqrt(1. - lam)` together with the two
`np.random.randint` centers. -/
structure Draws where
  betaLam : ℚ
  perm : List ℕ
  boxDraws : List (ℚ × ℕ × ℕ)
deriving DecidableEq

/-- `state.input[f] = t`: replace the binding of key `f` (the one
`List.lookup` finds) in the batch dictionary. -/
def updateB : Batch → String → Tensor → Batch
  | [], _, _ => []
  | (k, v) :: rest, f, t =>
    if f = k then (k, t) :: rest else (k, v) :: updateB rest f t

/-- The `for f in self.fields` loop of `on_batch_start`: box, splice,
recompute `lam`, in field order.  The running `lam` enters `rand_bbox`
only through `cut_rat = sqrt(1 - lam)`, which is the oracle component
`d.1` of the per-field draw; theorems constrain it by `is_sqrt`. -/
def mixFields (index : List ℕ) :
    List String → List (ℚ × ℕ × ℕ) → ℚ → Batch → Except MixErr (ℚ × Batch)
  | [], _, lam, input => .ok (lam, input)
  | f :: fs, ds, _lam, input =>
    match List.lookup f input with
    | none => .error .keyError
    | some t =>
      let d := ds.headD (0, 0, 0)
      match rand_bbox t.shape d.1 d.2.1 d.2.2 with
      | .error e => .error e
      | .ok (bbx1, bby1, bbx2, bby2) =>
        match sliceAssign t index bbx1 bby1 bbx2 bby2 with
        | .error e => .error e
        | .ok t2 =>
          let lam2 := recompute_lam bbx1 bby1 bbx2 bby2
            (t.shape.getD (t.shape.length - 1) 0)
            (t.shape.getD (t.shape.length - 2) 0)
          mixFields index fs ds.tail lam2 (updateB input f t2)

/-- `on_batch_start`.  `draws.perm` models the output of
`torch.randperm(state.input[self.fields[0]].shape[0])`; the result of
`self.index.to(state.device)` is bound and discarded exactly as in the
source.  An empty field list makes `self.fields[0]` raise `IndexError`,
and a field absent from the batch raises `KeyError`. -/
def on_batch_start (cb : CutMixCallback) (input : Batch) (device : String)
    (draws : Draws) : Except MixErr (CutMixCallback × Batch) :=
  if cb.is_needed = false then .ok (cb, input)
  else
    let lam1 : ℚ := if cb.alpha > 0 then draws.betaLam else 1
    match cb.fields.head? with
    | none => .error .indexError
    | some f0 =>
      match List.lookup f0 input with
      | none => .error .keyError
      | some _t0 =>
        let index : IdxTensor := { vals := draws.perm, device := "cpu" }
        let _moved := idx_to index device
        match mixFields index.vals cb.fields draws.boxDraws lam1 input with
        | .error e => .error e
        | .ok (lam2, input2) =>
          .ok ({ cb with lam := lam2, index := some index }, input2)

/-- Modelled from the spec: the base class `CriterionCallback` lives in the
external catalyst framework (not part of this repository); per the spec its
loss computation is the plain criterion on predictions vs. original
targets. -/
def super_compute_loss (pred target : Tensor)
    (criterion : Tensor → Tensor → ℚ) : ℚ :=
  criterion pred target

/-- The size of one leading-dimension row of a tensor. -/
def Tensor.rowSize (t : Tensor) : ℕ := t.shape.tail.prod

/-- Row `i` of a tensor along its leading dimension. -/
def Tensor.row (t : Tensor) (i : ℕ) : List ℚ :=
  (t.data.drop (i * t.rowSize)).take t.rowSize

/-- `t[idx]` for an integer index tensor `idx`: stack the selected
leading-dimension rows. -/
def indexSelect0 (t : Tensor) (idx : List ℕ) : Tensor :=
  { shape := idx.length :: t.shape.tail
    data := (idx.map (fun i => Tensor.row t i)).flatten }

/-- `CutMixCallback._compute_loss`.  With `is_needed` false it delegates to
the base class; otherwise it blends the criterion on the original targets
and on the targets permuted by the stored index. -/
def compute_loss (cb : CutMixCallback) (pred y_a : Tensor)
    (criterion : Tensor → Tensor → ℚ) : ℚ :=
  if cb.is_needed = false then super_compute_loss pred y_a criterion
  else
    let y_b := indexSelect0 y_a (cb.index.getD { vals := [], device := "cpu" }).vals
    cb.lam * criterion pred y_a + (1 - cb.lam) * criterion pred y_b

/-- `r` is the exact value of `np.sqrt x`: nonnegative with square `x`. -/
def is_sqrt (x r : ℚ) : Prop := 0 ≤ r ∧ r * r = x

instance decIsSqrt (x r : ℚ) : Decidable (is_sqrt x r) :=
  inferInstanceAs (Decidable (0 ≤ r ∧ r * r = x))

/-- A field is usable for mixing: present in the batch, rank 4, and with
nonempty spatial dimensions. -/
def field_ok (input : Batch) (f : String) : Bool :=
  match List.lookup f input with
  | none => false
  | some t =>
    t.shape.length == 4 && decide (1 ≤ t.shape.getD 2 0)
      && decide (1 ≤ t.shape.getD 3 0)

/-! Concrete instances used by the closed theorems and witnesses. -/

/-- A rank-3 field tensor (channel, H, W) = (1, 2, 2). -/
def t3 : Tensor := { shape := [1, 2, 2], data := [1, 2, 3, 4] }

/-- A rank-4 field tensor (batch, channel, H, W) = (2, 1, 2, 2). -/
def t4 : Tensor := { shape := [2, 1, 2, 2], data := [1, 2, 3, 4, 5, 6, 7, 8] }

/-- An active callback with `alpha = 0`. -/
def cbA0 : CutMixCallback :=
  { fields := ["features"], alpha := 0, on_train_only := true,
    lam := 1, index := none, is_needed := true }

/-- An active callback with `alpha = 1`. -/
def cbA1 : CutMixCallback :=
  { fields := ["features"], alpha := 1, on_train_only := true,
    lam := 1, index := none, is_needed := true }

/-- An inactive callback (as after `on_loader_start` on a "valid" loader). -/
def cbOff : CutMixCallback :=
  { fields := ["features"], alpha := 1, on_train_only := true,
    lam := 3, index := none, is_needed := false }

/-- A callback configured with `on_train_only = False`. -/
def cbAlways : CutMixCallback :=
  { fields := ["features"], alpha := 1, on_train_only := false,
    lam := 1, index := none, is_needed := true }

/-- A rank-3 batch. -/
def batch3 : Batch := [("features", t3)]

/-- A rank-4 batch. -/
def batch4 : Batch := [("features", t4)]

/-- Draws for the rank-3 run: `alpha = 0` so `lam = 1`, `sqrt(1 - 1) = 0`. -/
def draws3 : Draws := { betaLam := 0, perm := [0], boxDraws := [(0, 1, 1)] }

/-- Draws for an `alpha = 0` rank-4 run; `betaLam` is arbitrary because it
is never read when `alpha = 0`. -/
def draws40 : Draws := { betaLam := 7, perm := [1, 0], boxDraws := [(0, 0, 0)] }

/-- Draws for an `alpha = 1` rank-4 run: Beta sample 0, `sqrt(1 - 0) = 1`,
centers (1, 1). -/
def draws41 : Draws := { betaLam := 0, perm := [1, 0], boxDraws := [(1, 1, 1)] }

/-- The callback state after the `alpha = 1` run on `batch4`. -/
def cbA1after : CutMixCallback :=
  { fields := ["features"], alpha := 1, on_train_only := true,
    lam := 0, index := some { vals := [1, 0], device := "cpu" },
    is_needed := true }

/-- `t4` with the full box spliced by the pairing [1, 0]: rows swapped. -/
def t4swapped : Tensor :=
  { shape := [2, 1, 2, 2], data := [5, 6, 7, 8, 1, 2, 3, 4] }

/-- The callback state after the `alpha = 0` run on `batch4`. -/
def cbA0after : CutMixCallback :=
  { fields := ["features"], alpha := 0, on_train_only := true,
    lam := 1, index := some { vals := [1, 0], device := "cpu" },
    is_needed := true }

/-- A prediction tensor for the loss examples. -/
def predX : Tensor := { shape := [2, 2], data := [0, 1, 0, 1] }

/-- A target tensor for the loss examples: two rows of size 2. -/
def targetX : Tensor := { shape := [2, 2], data := [10, 20, 30, 40] }

/-- A concrete criterion for the loss examples. -/
def critX (p t : Tensor) : ℚ := p.data.headD 0 + 2 * t.data.headD 0

/-- An active callback with a stored `lam` and pairing index, as after a
mixing step. -/
def cbLoss : CutMixCallback :=
  { fields := ["features"], alpha := 1, on_train_only := true,
    lam := 1/3, index := some { vals := [1, 0], device := "cpu" },
    is_needed := true }

instance instDecEqExcept {ε α : Type} [DecidableEq ε] [DecidableEq α] :
    DecidableEq (Except ε α) :=
  fun a b =>
    match a, b with
    | .ok x, .ok y =>
      if h : x = y then .isTrue (by rw [h]) else .isFalse (by simp [h])
    | .error x, .error y =>
      if h : x = y then .isTrue (by rw [h]) else .isFalse (by simp [h])
    | .ok _, .error _ => .isFalse (by simp)
    | .error _, .ok _ => .isFalse (by simp)

/-! Helper lemmas. -/

theorem clip_nonneg (x : ℤ) (W : ℕ) : 0 ≤ clip x 0 (W : ℤ) := by
  unfold clip
  exact le_min (Int.natCast_nonneg W) (le_max_left 0 x)

theorem clip_le_hi (x : ℤ) (W : ℕ) : clip x 0 (W : ℤ) ≤ (W : ℤ) :=
  min_le_left _ _

theorem clip_mono {x y : ℤ} (W : ℕ) (h : x ≤ y) :
    clip x 0 (W : ℤ) ≤ clip y 0 (W : ℤ) :=
  min_le_min (le_refl _) (max_le_max (le_refl _) h)

theorem npInt_nonneg {q : ℚ} (h : 0 ≤ q) : 0 ≤ npInt q :=
  Int.tdiv_nonneg (Rat.num_nonneg.mpr h) (Int.natCast_nonneg _)

theorem npInt_zero : npInt 0 = 0 := rfl

/-- Characterisation of a successful `rand_bbox` call: the four clipped
coordinates, with nonempty spatial extent. -/
theorem rand_bbox_spec {size : List ℕ} {cutRat : ℚ} {cx cy W H : ℕ}
    {x1 y1 x2 y2 : ℤ}
    (hWH : getWH size = some (W, H))
    (hbox : rand_bbox size cutRat cx cy = .ok (x1, y1, x2, y2)) :
    W ≠ 0 ∧ H ≠ 0 ∧
    x1 = clip ((cx : ℤ) - (npInt ((W : ℚ) * cutRat)).fdiv 2) 0 (W : ℤ) ∧
    y1 = clip ((cy : ℤ) - (npInt ((H : ℚ) * cutRat)).fdiv 2) 0 (H : ℤ) ∧
    x2 = clip ((cx : ℤ) + (npInt ((W : ℚ) * cutRat)).fdiv 2) 0 (W : ℤ) ∧
    y2 = clip ((cy : ℤ) + (npInt ((H : ℚ) * cutRat)).fdiv 2) 0 (H : ℤ) := by
  unfold rand_bbox at hbox
  rw [hWH] at hbox
  by_cases hW : W = 0
  · simp [hW] at hbox
  by_cases hH : H = 0
  · simp [hW, hH] at hbox
  simp only [hW, hH, if_false] at hbox
  refine ⟨hW, hH, ?_⟩
  injection hbox with hbox
  injection hbox with h1 hbox
  injection hbox with h2 hbox
  injection hbox with h3 h4
  exact ⟨h1.symm, h2.symm, h3.symm, h4.symm⟩

/-- Any box returned by `rand_bbox` with a nonnegative cut ratio sits
inside the spatial extent, with ordered corners. -/
theorem rand_bbox_bounds {size : List ℕ} {cutRat : ℚ} {cx cy W H : ℕ}
    {x1 y1 x2 y2 : ℤ}
    (hWH : getWH size = some (W, H)) (hcr : 0 ≤ cutRat)
    (hbox : rand_bbox size cutRat cx cy = .ok (x1, y1, x2, y2)) :
    0 ≤ x1 ∧ x1 ≤ x2 ∧ x2 ≤ (W : ℤ) ∧ 0 ≤ y1 ∧ y1 ≤ y2 ∧ y2 ≤ (H : ℤ) := by
  obtain ⟨-, -, h1, h2, h3, h4⟩ := rand_bbox_spec hWH hbox
  have hw : 0 ≤ (npInt ((W : ℚ) * cutRat)).fdiv 2 :=
    Int.fdiv_nonneg (npInt_nonneg (by positivity)) (by omega)
  have hh : 0 ≤ (npInt ((H : ℚ) * cutRat)).fdiv 2 :=
    Int.fdiv_nonneg (npInt_nonneg (by positivity)) (by omega)
  subst h1 h2 h3 h4
  refine ⟨clip_nonneg _ _, clip_mono _ (by omega), clip_le_hi _ _,
    clip_nonneg _ _, clip_mono _ (by omega), clip_le_hi _ _⟩

/-- With cut ratio 0 every box `rand_bbox` returns is degenerate. -/
theorem rand_bbox_zero {size : List ℕ} {cx cy : ℕ} {x1 y1 x2 y2 : ℤ}
    (hbox : rand_bbox size 0 cx cy = .ok (x1, y1, x2, y2)) :
    x1 = x2 ∧ y1 = y2 := by
  unfold rand_bbox at hbox
  cases hWH : getWH size with
  | none => rw [hWH] at hbox; simp at hbox
  | some WH =>
    obtain ⟨W, H⟩ := WH
    obtain ⟨-, -, h1, h2, h3, h4⟩ := rand_bbox_spec hWH hbox
    subst h1 h2 h3 h4
    simp only [mul_zero, npInt_zero, Int.zero_fdiv, sub_zero, add_zero]
    exact ⟨trivial, trivial⟩

/-- A pointwise-identity `mapIdx` leaves the list unchanged. -/
theorem mapIdx_id_of {α : Type} (f : ℕ → α → α) (l : List α)
    (h : ∀ i a, f i a = a) : l.mapIdx f = l := by
  induction l generalizing f with
  | nil => rfl
  | cons a rest ih =>
    rw [List.mapIdx_cons, h 0 a, ih (fun i => f (i + 1)) (fun i b => h (i + 1) b)]

/-- Splicing a horizontally empty box is the identity. -/
theorem splice4_empty (t : Tensor) (index : List ℕ) (a y1 y2 : ℕ) :
    splice4 t index a y1 a y2 = t := by
  obtain ⟨s, d⟩ := t
  simp only [splice4]
  congr 1
  exact mapIdx_id_of _ _ (fun i v => if_neg (by rintro ⟨h1, h2, -⟩; omega))

/-- Writing back the tensor that `List.lookup` finds leaves the batch
unchanged. -/
theorem updateB_lookup_self {input : Batch} {f : String} {t : Tensor}
    (h : List.lookup f input = some t) : updateB input f t = input := by
  induction input with
  | nil => simp at h
  | cons p rest ih =>
    obtain ⟨k, v⟩ := p
    by_cases hk : f = k
    · subst hk
      rw [List.lookup_cons_self] at h
      injection h with h
      subst h
      simp [updateB]
    · have hbeq : (f == k) = false := beq_eq_false_iff_ne.mpr hk
      rw [List.lookup_cons, hbeq] at h
      simp only [updateB, if_neg hk]
      rw [ih h]

/-- A degenerate box (zero width) recomputes `lam` to exactly 1. -/
theorem recompute_lam_degenerate {x1 x2 : ℤ} (y1 y2 : ℤ) (d1 d2 : ℕ)
    (h : x1 = x2) : recompute_lam x1 y1 x2 y2 d1 d2 = 1 := by
  unfold recompute_lam
  rw [h]
  simp

/-- `rand_bbox` with cut ratio 0 and nonempty extent: both corners collapse
to the clipped center. -/
theorem rand_bbox_zero_eq {size : List ℕ} {W H : ℕ} (cx cy : ℕ)
    (hWH : getWH size = some (W, H)) (hW : W ≠ 0) (hH : H ≠ 0) :
    rand_bbox size 0 cx cy =
      .ok (clip (cx : ℤ) 0 (W : ℤ), clip (cy : ℤ) 0 (H : ℤ),
           clip (cx : ℤ) 0 (W : ℤ), clip (cy : ℤ) 0 (H : ℤ)) := by
  unfold rand_bbox
  rw [hWH]
  simp [hW, hH, mul_zero, npInt_zero, Int.zero_fdiv]

/-- The mixing loop with all-zero cut ratios over rank-4 fields is the
identity on the batch and ends with `lam = 1`. -/
theorem mixFields_deg (index : List ℕ) (fs : List String)
    (ds : List (ℚ × ℕ × ℕ)) (input : Batch)
    (hok : ∀ f ∈ fs, field_ok input f = true)
    (hds : ∀ d ∈ ds, d.1 = 0) :
    mixFields index fs ds 1 input = .ok (1, input) := by
  induction fs generalizing ds with
  | nil => rfl
  | cons f rest ih =>
    have hf := hok f (List.mem_cons_self f rest)
    unfold field_ok at hf
    cases hlk : List.lookup f input with
    | none => rw [hlk] at hf; simp at hf
    | some t =>
      rw [hlk] at hf
      simp only [Bool.and_eq_true, beq_iff_eq, decide_eq_true_eq] at hf
      obtain ⟨⟨hlen4, hs2⟩, hs3⟩ := hf
      have hd1 : (ds.headD (0, 0, 0)).1 = 0 := by
        cases ds with
        | nil => rfl
        | cons d0 drest => exact hds d0 (List.mem_cons_self _ _)
      have hWH : getWH t.shape = some (t.shape.getD 2 0, t.shape.getD 3 0) := by
        unfold getWH
        rw [if_pos hlen4]
      have hbox := rand_bbox_zero_eq (W := t.shape.getD 2 0)
        (H := t.shape.getD 3 0) (ds.headD (0, 0, 0)).2.1
        (ds.headD (0, 0, 0)).2.2 hWH (by omega) (by omega)
      have hsl : sliceAssign t index
          (clip ((ds.headD (0, 0, 0)).2.1 : ℤ) 0 (t.shape.getD 2 0 : ℤ))
          (clip ((ds.headD (0, 0, 0)).2.2 : ℤ) 0 (t.shape.getD 3 0 : ℤ))
          (clip ((ds.headD (0, 0, 0)).2.1 : ℤ) 0 (t.shape.getD 2 0 : ℤ))
          (clip ((ds.headD (0, 0, 0)).2.2 : ℤ) 0 (t.shape.getD 3 0 : ℤ))
          = .ok t := by
        unfold sliceAssign
        rw [if_neg (by omega), splice4_empty]
      have htl : ∀ d ∈ ds.tail, d.1 = 0 := by
        intro d hd
        cases ds with
        | nil => simp at hd
        | cons d0 r => exact hds d (List.mem_cons_of_mem d0 hd)
      simp only [mixFields, hlk, hd1, hbox, hsl,
        recompute_lam_degenerate _ _ _ _ rfl, updateB_lookup_self hlk]
      exact ih ds.tail (fun g hg => hok g (List.mem_cons_of_mem f hg)) htl

/-- If the mixing loop starts at `lam = 1` with all-zero cut ratios and
succeeds, the final `lam` is 1 (no rank assumptions needed). -/
theorem mixFields_ok_lam_one (index : List ℕ) (fs : List String) :
    ∀ (ds : List (ℚ × ℕ × ℕ)) (input : Batch) (lam2 : ℚ) (input2 : Batch),
    (∀ d ∈ ds, d.1 = 0) →
    mixFields index fs ds 1 input = .ok (lam2, input2) → lam2 = 1 := by
  induction fs with
  | nil =>
    intro ds input lam2 input2 _ h
    unfold mixFields at h
    injection h with h
    injection h with h1 h2
    exact h1.symm
  | cons f rest ih =>
    intro ds input lam2 input2 hds h
    have hd1 : (ds.headD (0, 0, 0)).1 = 0 := by
      cases ds with
      | nil => rfl
      | cons d0 drest => exact hds d0 (List.mem_cons_self _ _)
    have htl : ∀ d ∈ ds.tail, d.1 = 0 := by
      intro d hd
      cases ds with
      | nil => simp at hd
      | cons d0 r => exact hds d (List.mem_cons_of_mem d0 hd)
    unfold mixFields at h
    cases hlk : List.lookup f input with
    | none => rw [hlk] at h; exact absurd h (by simp)
    | some t =>
      rw [hlk] at h
      simp only at h
      rw [hd1] at h
      cases hbb : rand_bbox t.shape 0 (ds.headD (0, 0, 0)).2.1
          (ds.headD (0, 0, 0)).2.2 with
      | error e => rw [hbb] at h; exact absurd h (by simp)
      | ok box =>
        obtain ⟨x1, y1, x2, y2⟩ := box
        obtain ⟨hx, -⟩ := rand_bbox_zero hbb
        rw [hbb] at h
        simp only at h
        cases hsl : sliceAssign t index x1 y1 x2 y2 with
        | error e => rw [hsl] at h; exact absurd h (by simp)
        | ok t2 =>
          rw [hsl] at h
          simp only at h
          rw [recompute_lam_degenerate y1 y2 _ _ hx] at h
          exact ih ds.tail (updateB input f t2) lam2 input2 htl h

/-- A successful active `on_batch_start` call is the mixing loop's result
packed into the callback state; in particular the stored pairing index is
the raw `randperm` draw on the cpu device. -/
theorem on_batch_start_ok {cb : CutMixCallback} {input : Batch}
    {device : String} {draws : Draws} {cb2 : CutMixCallback} {input2 : Batch}
    (hneed : cb.is_needed = true)
    (hrun : on_batch_start cb input device draws = .ok (cb2, input2)) :
    ∃ lam2, cb2 = { cb with
        lam := lam2
        index := some { vals := draws.perm, device := "cpu" } } ∧
      mixFields draws.perm cb.fields draws.boxDraws
        (if cb.alpha > 0 then draws.betaLam else 1) input
        = .ok (lam2, input2) := by
  unfold on_batch_start at hrun
  rw [if_neg (by simp [hneed])] at hrun
  cases hh : cb.fields.head? with
  | none => simp [hh] at hrun
  | some f0 =>
    simp only [hh] at hrun
    cases hl : List.lookup f0 input with
    | none => simp [hl] at hrun
    | some t0 =>
      simp only [hl] at hrun
      cases hm : mixFields draws.perm cb.fields draws.boxDraws
          (if cb.alpha > 0 then draws.betaLam else 1) input with
      | error e => simp [hm] at hrun
      | ok r =>
        obtain ⟨lam2, input2x⟩ := r
        simp only [hm] at hrun
        injection hrun with hrun
        injection hrun with hcb hin
        exact ⟨lam2, hcb.symm, by rw [← hin]⟩

/-- Reading row `i` out of the concatenation of equally sized rows picks
the i-th selected row. -/
theorem flatten_rows_get (t : Tensor) (idx : List ℕ) (i : ℕ)
    (hi : i < idx.length)
    (hrows : ∀ j ∈ idx, (t.row j).length = t.rowSize) :
    (((idx.map (fun j => Tensor.row t j)).flatten.drop (i * t.rowSize)).take
        t.rowSize) = t.row (idx.getD i 0) := by
  induction idx generalizing i with
  | nil => simp at hi
  | cons j rest ih =>
    cases i with
    | zero =>
      simp only [List.map_cons, List.flatten_cons, Nat.zero_mul,
        List.drop_zero, List.getD_cons_zero]
      exact List.take_left' (hrows j (List.mem_cons_self _ _))
    | succ k =>
      have harith : (k + 1) * t.rowSize = t.rowSize + k * t.rowSize := by ring
      simp only [List.map_cons, List.flatten_cons, List.getD_cons_succ]
      rw [harith, ← List.drop_drop,
        List.drop_left' (hrows j (List.mem_cons_self _ _))]
      exact ih k (by simpa using Nat.lt_of_succ_lt_succ (by simpa using hi))
        (fun g hg => hrows g (List.mem_cons_of_mem j hg))

/-- Row `i` of `t[idx]` is row `idx[i]` of `t`, for a well-formed tensor
and in-range indices. -/
theorem indexSelect0_row (t : Tensor) (idx : List ℕ) (i : ℕ)
    (hi : i < idx.length)
    (hlen : t.data.length = t.shape.prod)
    (hidx : ∀ j ∈ idx, j < t.shape.headD 0) :
    Tensor.row (indexSelect0 t idx) i = Tensor.row t (idx.getD i 0) := by
  have hrows : ∀ j ∈ idx, (t.row j).length = t.rowSize := by
    intro j hj
    cases hs : t.shape with
    | nil =>
      have := hidx j hj
      rw [hs] at this
      simp at this
    | cons n tl =>
      have hjn : j < n := by
        have := hidx j hj
        rwa [hs] at this
      have hrs : t.rowSize = tl.prod := by
        unfold Tensor.rowSize
        rw [hs]
        rfl
      have hdlen : t.data.length = n * tl.prod := by
        rw [hlen, hs, List.prod_cons]
      unfold Tensor.row
      rw [List.length_take, List.length_drop, hrs, hdlen]
      have : (j + 1) * tl.prod ≤ n * tl.prod :=
        Nat.mul_le_mul_right _ (by omega)
      have hle : tl.prod ≤ n * tl.prod - j * tl.prod := by
        rw [Nat.add_mul] at this
        omega
      omega
  have hsel_rs : (indexSelect0 t idx).rowSize = t.rowSize := rfl
  show ((indexSelect0 t idx).data.drop (i * (indexSelect0 t idx).rowSize)).take
      (indexSelect0 t idx).rowSize = Tensor.row t (idx.getD i 0)
  rw [hsel_rs]
  exact flatten_rows_get t idx i hi hrows

/-! The claim theorems. -/

/-- C1: the claim says batch mixing raises an unsupported-shape error iff a
designated field has rank other than 3 or 4, and that rank-3 and rank-4
fields mix without error.  The code disagrees for rank 3: `rand_bbox`
accepts a rank-3 size (first conjunct), and ranks other than 3 and 4 do
raise the shape exception (third and fourth conjuncts), but the 4-index
slice assignment then raises an indexing error on every rank-3 field, so
`on_batch_start` fails on a rank-3 batch (second conjunct) while a rank-4
batch completes (fifth conjunct). -/
theorem C1_rank3_mixing_raises :
    rand_bbox [1, 2, 2] 0 1 1 = .ok (1, 1, 1, 1)
    ∧ on_batch_start cbA0 batch3 "cpu" draws3 = .error .indexError
    ∧ rand_bbox [2, 2] 0 1 1 = .error .shapeError
    ∧ rand_bbox [2, 1, 2, 2, 2] 0 1 1 = .error .shapeError
    ∧ on_batch_start cbA1 batch4 "cpu" draws41
        = .ok (cbA1after, [("features", t4swapped)]) :=
  of_decide_eq_true (by with_unfolding_all rfl)

/-- C2: when active, the loss is
`lam * criterion(pred, y_a) + (1 - lam) * criterion(pred, y_b)` where
`y_b` selects rows of `y_a` through the stored pairing index:
`y_b[i] = y_a[index[i]]`. -/
theorem C2_blended_loss (cb : CutMixCallback) (pred y_a : Tensor)
    (criterion : Tensor → Tensor → ℚ) (idxT : IdxTensor) (N : ℕ)
    (hneed : cb.is_needed = true)
    (hidx : cb.index = some idxT)
    (hlen : y_a.data.length = y_a.shape.prod)
    (hN : y_a.shape.headD 0 = N)
    (hperm : idxT.vals.Perm (List.range N)) :
    compute_loss cb pred y_a criterion
      = cb.lam * criterion pred y_a
        + (1 - cb.lam) * criterion pred (indexSelect0 y_a idxT.vals)
    ∧ ∀ i, i < idxT.vals.length →
        Tensor.row (indexSelect0 y_a idxT.vals) i
          = Tensor.row y_a (idxT.vals.getD i 0) := by
  constructor
  · unfold compute_loss
    rw [if_neg (by simp [hneed]), hidx, Option.getD_some]
  · intro i hi
    refine indexSelect0_row y_a idxT.vals i hi hlen ?_
    intro j hj
    rw [hN]
    exact List.mem_range.mp (hperm.mem_iff.mp hj)

theorem C2_blended_loss_witness :
    compute_loss cbLoss predX targetX critX
      = cbLoss.lam * critX predX targetX
        + (1 - cbLoss.lam) * critX predX (indexSelect0 targetX [1, 0])
    ∧ ∀ i, i < ([1, 0] : List ℕ).length →
        Tensor.row (indexSelect0 targetX [1, 0]) i
          = Tensor.row targetX (([1, 0] : List ℕ).getD i 0) :=
  C2_blended_loss cbLoss predX targetX critX
    { vals := [1, 0], device := "cpu" } 2 rfl rfl rfl rfl (by decide)

/-- C3: with `on_train_only` true and a loader name that does not start
with "train", the phase flag is false; with the flag false, batch-start
mixing returns the callback state and the batch unchanged and the loss
delegates to the base class (criterion on predictions vs. original
targets); with `on_train_only` false the flag is true on every loader. -/
theorem C3_train_only_gating :
    (∀ (cb : CutMixCallback) (lname : String),
       cb.on_train_only = true → lname.startsWith "train" = false →
       (on_loader_start cb lname).is_needed = false)
    ∧ (∀ (cb : CutMixCallback) (input : Batch) (device : String)
         (draws : Draws), cb.is_needed = false →
         on_batch_start cb input device draws = .ok (cb, input))
    ∧ (∀ (cb : CutMixCallback) (pred y_a : Tensor)
         (criterion : Tensor → Tensor → ℚ), cb.is_needed = false →
         compute_loss cb pred y_a criterion
           = super_compute_loss pred y_a criterion
         ∧ super_compute_loss pred y_a criterion = criterion pred y_a)
    ∧ (∀ (cb : CutMixCallback) (lname : String), cb.on_train_only = false →
         (on_loader_start cb lname).is_needed = true) := by
  refine ⟨?_, ?_, ?_, ?_⟩
  · intro cb lname h1 h2
    simp [on_loader_start, h1, h2]
  · intro cb input device draws h
    unfold on_batch_start
    rw [if_pos h]
  · intro cb pred y_a criterion h
    constructor
    · unfold compute_loss
      rw [if_pos h]
    · rfl
  · intro cb lname h
    simp [on_loader_start, h]

theorem C3_train_only_gating_witness :
    (on_loader_start cbA1 "valid").is_needed = false
    ∧ on_batch_start cbOff batch3 "cpu" draws3 = .ok (cbOff, batch3)
    ∧ (compute_loss cbOff predX targetX critX
        = super_compute_loss predX targetX critX
      ∧ super_compute_loss predX targetX critX = critX predX targetX)
    ∧ (on_loader_start cbAlways "valid").is_needed = true :=
  ⟨C3_train_only_gating.1 cbA1 "valid" rfl
      (of_decide_eq_true (by with_unfolding_all rfl)),
   C3_train_only_gating.2.1 cbOff batch3 "cpu" draws3 rfl,
   C3_train_only_gating.2.2.1 cbOff predX targetX critX rfl,
   C3_train_only_gating.2.2.2 cbAlways "valid" rfl⟩

/-- C4: with `alpha = 0` and the transform active, any successful batch
mixing ends with the stored `lam` equal to 1, whatever the Beta sample and
pairing permutation were; and whenever the stored `lam` is 1 the blended
loss collapses to `criterion(pred, y_a)`, independent of the stored
pairing index. -/
theorem C4_alpha_zero_loss :
    (∀ (cb : CutMixCallback) (input : Batch) (device : String)
       (draws : Draws) (cb2 : CutMixCallback) (input2 : Batch),
       cb.alpha = 0 → cb.is_needed = true →
       (∀ d ∈ draws.boxDraws, is_sqrt (1 - 1) d.1) →
       on_batch_start cb input device draws = .ok (cb2, input2) →
       cb2.lam = 1)
    ∧ (∀ (cb : CutMixCallback) (pred y_a : Tensor)
         (criterion : Tensor → Tensor → ℚ),
         cb.lam = 1 → cb.is_needed = true →
         compute_loss cb pred y_a criterion = criterion pred y_a) := by
  constructor
  · intro cb input device draws cb2 input2 halpha hneed hsq hrun
    obtain ⟨lam2, hcb2, hmix⟩ := on_batch_start_ok hneed hrun
    rw [halpha, if_neg (lt_irrefl (0 : ℚ))] at hmix
    have hz : ∀ d ∈ draws.boxDraws, d.1 = 0 := by
      intro d hd
      exact mul_self_eq_zero.mp (by simpa using (hsq d hd).2)
    rw [hcb2]
    exact mixFields_ok_lam_one draws.perm cb.fields draws.boxDraws input
      lam2 input2 hz hmix
  · intro cb pred y_a criterion hlam hneed
    unfold compute_loss
    rw [if_neg (by simp [hneed]), hlam]
    ring

theorem C4_alpha_zero_loss_witness :
    cbA0after.lam = 1
    ∧ compute_loss cbA0after predX targetX critX = critX predX targetX :=
  ⟨C4_alpha_zero_loss.1 cbA0 batch4 "cpu" draws40 cbA0after batch4 rfl rfl
      (of_decide_eq_true (by with_unfolding_all rfl))
      (of_decide_eq_true (by with_unfolding_all rfl)),
   C4_alpha_zero_loss.2 cbA0after predX targetX critX rfl rfl⟩

/-- C5: every box the box computation returns, for λ in [0, 1], centers in
range, and the cut lengths derived from them, satisfies
`0 ≤ x1 ≤ x2 ≤ W` and `0 ≤ y1 ≤ y2 ≤ H`. -/
theorem C5_bbox_in_bounds (size : List ℕ) (lam cutRat : ℚ) (cx cy W H : ℕ)
    (x1 y1 x2 y2 : ℤ)
    (hWH : getWH size = some (W, H))
    (hlam0 : 0 ≤ lam) (hlam1 : lam ≤ 1)
    (hsq : is_sqrt (1 - lam) cutRat)
    (hcx : cx < W) (hcy : cy < H)
    (hbox : rand_bbox size cutRat cx cy = .ok (x1, y1, x2, y2)) :
    0 ≤ x1 ∧ x1 ≤ x2 ∧ x2 ≤ (W : ℤ) ∧ 0 ≤ y1 ∧ y1 ≤ y2 ∧ y2 ≤ (H : ℤ) :=
  rand_bbox_bounds hWH hsq.1 hbox

theorem C5_bbox_in_bounds_witness :
    (0 : ℤ) ≤ 1 ∧ (1 : ℤ) ≤ 3 ∧ (3 : ℤ) ≤ ((4 : ℕ) : ℤ)
    ∧ (0 : ℤ) ≤ 2 ∧ (2 : ℤ) ≤ 4 ∧ (4 : ℤ) ≤ ((5 : ℕ) : ℤ) :=
  C5_bbox_in_bounds [2, 3, 4, 5] (3/4) (1/2) 2 3 4 5 1 2 3 4 rfl
    (by norm_num) (by norm_num)
    (of_decide_eq_true (by with_unfolding_all rfl))
    (by omega) (by omega)
    (of_decide_eq_true (by with_unfolding_all rfl))

/-- C6: for every box the box computation produces on a field of spatial
extent W × H, the recomputed mixing ratio
`1 - (x2 - x1) * (y2 - y1) / (W * H)` lies in [0, 1]. -/
theorem C6_lam_recompute_unit (size : List ℕ) (lam cutRat : ℚ)
    (cx cy W H : ℕ) (x1 y1 x2 y2 : ℤ)
    (hWH : getWH size = some (W, H))
    (hsq : is_sqrt (1 - lam) cutRat)
    (hbox : rand_bbox size cutRat cx cy = .ok (x1, y1, x2, y2)) :
    0 ≤ recompute_lam x1 y1 x2 y2 W H
    ∧ recompute_lam x1 y1 x2 y2 W H ≤ 1 := by
  obtain ⟨hW, hH, -⟩ := rand_bbox_spec hWH hbox
  obtain ⟨h1, h2, h3, h4, h5, h6⟩ := rand_bbox_bounds hWH hsq.1 hbox
  unfold recompute_lam
  have hWpos : (0 : ℚ) < (W : ℚ) * (H : ℚ) := by
    have hW0 : 0 < W := Nat.pos_of_ne_zero hW
    have hH0 : 0 < H := Nat.pos_of_ne_zero hH
    have : (0 : ℚ) < (W : ℚ) := by exact_mod_cast hW0
    have : (0 : ℚ) < (H : ℚ) := by exact_mod_cast hH0
    positivity
  have ha1 : (0 : ℤ) ≤ (x2 - x1) * (y2 - y1) :=
    mul_nonneg (by omega) (by omega)
  have ha2 : (x2 - x1) * (y2 - y1) ≤ (W : ℤ) * (H : ℤ) :=
    mul_le_mul (by omega) (by omega) (by omega) (by omega)
  have hq0 : (0 : ℚ) ≤ (((x2 - x1) * (y2 - y1) : ℤ) : ℚ) := by
    exact_mod_cast ha1
  have hq1 : (((x2 - x1) * (y2 - y1) : ℤ) : ℚ) ≤ (W : ℚ) * (H : ℚ) := by
    exact_mod_cast ha2
  have hd0 : (0 : ℚ) ≤ (((x2 - x1) * (y2 - y1) : ℤ) : ℚ) / ((W : ℚ) * (H : ℚ)) :=
    div_nonneg hq0 (le_of_lt hWpos)
  have hd1 : (((x2 - x1) * (y2 - y1) : ℤ) : ℚ) / ((W : ℚ) * (H : ℚ)) ≤ 1 :=
    (div_le_one hWpos).mpr hq1
  constructor <;> linarith

theorem C6_lam_recompute_unit_witness :
    0 ≤ recompute_lam 1 2 3 4 4 5 ∧ recompute_lam 1 2 3 4 4 5 ≤ 1 :=
  C6_lam_recompute_unit [2, 3, 4, 5] (3/4) (1/2) 2 3 4 5 1 2 3 4 rfl
    (of_decide_eq_true (by with_unfolding_all rfl))
    (of_decide_eq_true (by with_unfolding_all rfl))

/-- C7 counterexample: the claim says the stored λ equals 1 at the start of
every batch, before the mixing step, regardless of earlier batches.  After
one active batch (`alpha = 1`, Beta sample 0, full-extent box) the stored
λ is 0, so the next batch begins with λ = 0 ≠ 1: nothing resets λ to 1
between batches. -/
theorem C7_lam_persists_counterexample :
    on_batch_start cbA1 batch4 "cpu" draws41
      = .ok (cbA1after, [("features", t4swapped)])
    ∧ cbA1after.lam ≠ 1 :=
  of_decide_eq_true (by with_unfolding_all rfl)

/-- C7 amended: λ is 1 at construction; an inactive batch-start leaves the
whole state (λ included) unchanged; an active batch-start overwrites λ
without ever reading the incoming value (its result is independent of the
stored λ).  But λ is not reset to 1 at the start of a batch — the previous
batch's final value persists until the mixing step overwrites it. -/
theorem C7_lam_lifecycle :
    (∀ (fields : List String) (alpha : ℚ) (ot : Bool) (cb : CutMixCallback),
       construct fields alpha ot = .ok cb → cb.lam = 1)
    ∧ (∀ (cb : CutMixCallback) (input : Batch) (device : String)
         (draws : Draws), cb.is_needed = false →
         on_batch_start cb input device draws = .ok (cb, input))
    ∧ (∀ (cb : CutMixCallback) (input : Batch) (device : String)
         (draws : Draws) (x : ℚ), cb.is_needed = true →
         on_batch_start { cb with lam := x } input device draws
           = on_batch_start cb input device draws) := by
  refine ⟨?_, ?_, ?_⟩
  · intro fields alpha ot cb h
    unfold construct at h
    by_cases h1 : fields.length > 0
    · rw [if_pos h1] at h
      by_cases h2 : alpha ≥ 0
      · rw [if_pos h2] at h
        injection h with h
        rw [← h]
      · rw [if_neg h2] at h
        exact absurd h (by simp)
    · rw [if_neg h1] at h
      exact absurd h (by simp)
  · intro cb input device draws h
    unfold on_batch_start
    rw [if_pos h]
  · intro cb input device draws x h
    obtain ⟨flds, a, ot, l, idx, nd⟩ := cb
    simp only at h
    subst h
    rfl

theorem C7_lam_lifecycle_witness :
    cbA1.lam = 1
    ∧ on_batch_start cbOff batch4 "cpu" draws41 = .ok (cbOff, batch4)
    ∧ on_batch_start { cbA1 with lam := 5 } batch4 "cpu" draws41
        = on_batch_start cbA1 batch4 "cpu" draws41 :=
  ⟨C7_lam_lifecycle.1 ["features"] 1 true cbA1
      (of_decide_eq_true (by with_unfolding_all rfl)),
   C7_lam_lifecycle.2.1 cbOff batch4 "cpu" draws41 rfl,
   C7_lam_lifecycle.2.2 cbA1 batch4 "cpu" draws41 5 rfl⟩

/-- C8: construction fails exactly when the field list is empty or
`alpha < 0`; in particular `fields = []` and `alpha = -0.5` are rejected,
and every nonempty field list with `alpha ≥ 0` is accepted. -/
theorem C8_construct_validation :
    (∀ (fields : List String) (alpha : ℚ) (ot : Bool),
       (construct fields alpha ot).toOption.isSome = true ↔
         fields ≠ [] ∧ 0 ≤ alpha)
    ∧ (construct [] 1 true).toOption = none
    ∧ (construct ["features"] (-(1/2)) true).toOption = none := by
  refine ⟨?_, of_decide_eq_true (by with_unfolding_all rfl),
    of_decide_eq_true (by with_unfolding_all rfl)⟩
  intro fields alpha ot
  unfold construct
  by_cases h1 : fields.length > 0
  · rw [if_pos h1]
    by_cases h2 : alpha ≥ 0
    · rw [if_pos h2]
      simp only [Except.toOption, Option.isSome_some, true_iff]
      exact ⟨by intro hnil; rw [hnil] at h1; simp at h1, h2⟩
    · rw [if_neg h2]
      simp only [Except.toOption, Option.isSome_none, Bool.false_eq_true,
        false_iff]
      rintro ⟨-, hge⟩
      exact absurd hge h2
  · rw [if_neg h1]
    have hnil : fields = [] := by
      cases fields with
      | nil => rfl
      | cons a l => simp at h1
    simp only [Except.toOption, Option.isSome_none, Bool.false_eq_true,
      false_iff, hnil]
    rintro ⟨hne, -⟩
    exact hne rfl

/-- C9: after an active `on_batch_start`, the stored pairing index is
exactly the fresh `randperm` draw (a permutation of `[0, N)` for `N` the
first field's leading dimension), still on the cpu device whatever the
state's device is: the result of `self.index.to(state.device)` is
discarded and never replaces or modifies the stored index. -/
theorem C9_index_stored_on_cpu (cb : CutMixCallback) (input : Batch)
    (device : String) (draws : Draws) (cb2 : CutMixCallback)
    (input2 : Batch) (t0 : Tensor) (N : ℕ)
    (hneed : cb.is_needed = true)
    (ht0 : cb.fields.head?.bind (fun f => List.lookup f input) = some t0)
    (hN : t0.shape.headD 0 = N)
    (hperm : draws.perm.Perm (List.range N))
    (hrun : on_batch_start cb input device draws = .ok (cb2, input2)) :
    cb2.index = some { vals := draws.perm, device := "cpu" }
    ∧ draws.perm.Perm (List.range N) := by
  obtain ⟨lam2, hcb2, -⟩ := on_batch_start_ok hneed hrun
  rw [hcb2]
  exact ⟨rfl, hperm⟩

theorem C9_index_stored_on_cpu_witness :
    cbA0after.index = some { vals := [1, 0], device := "cpu" }
    ∧ ([1, 0] : List ℕ).Perm (List.range 2) :=
  C9_index_stored_on_cpu cbA0 batch4 "cuda" draws40 cbA0after batch4 t4 2
    rfl (of_decide_eq_true (by with_unfolding_all rfl)) rfl (by decide)
    (of_decide_eq_true (by with_unfolding_all rfl))

/-- C10: with `alpha = 0` and the transform active, every box computed
from the (zero) cut ratio is degenerate (`x1 = x2` and `y1 = y2`), the
splice assigns an empty region, and `on_batch_start` succeeds leaving
every field tensor unchanged with the recomputed λ equal to 1. -/
theorem C10_alpha_zero_noop (cb : CutMixCallback) (input : Batch)
    (device : String) (draws : Draws)
    (halpha : cb.alpha = 0) (hneed : cb.is_needed = true)
    (hne : cb.fields ≠ [])
    (hok : ∀ f ∈ cb.fields, field_ok input f = true)
    (hsq : ∀ d ∈ draws.boxDraws, is_sqrt (1 - 1) d.1) :
    (∀ d ∈ draws.boxDraws, ∀ (size : List ℕ) (x1 y1 x2 y2 : ℤ),
        rand_bbox size d.1 d.2.1 d.2.2 = .ok (x1, y1, x2, y2) →
        x1 = x2 ∧ y1 = y2)
    ∧ on_batch_start cb input device draws =
        .ok ({ cb with
            lam := 1
            index := some { vals := draws.perm, device := "cpu" } }, input) := by
  have hz : ∀ d ∈ draws.boxDraws, d.1 = 0 := by
    intro d hd
    exact mul_self_eq_zero.mp (by simpa using (hsq d hd).2)
  constructor
  · intro d hd size x1 y1 x2 y2 hbox
    rw [hz d hd] at hbox
    exact rand_bbox_zero hbox
  · unfold on_batch_start
    rw [if_neg (by simp [hneed]), halpha, if_neg (lt_irrefl (0 : ℚ))]
    obtain ⟨f0, rest, hf⟩ := List.exists_cons_of_ne_nil hne
    have hf0ok := hok f0 (by rw [hf]; exact List.mem_cons_self _ _)
    unfold field_ok at hf0ok
    cases hlk : List.lookup f0 input with
    | none => rw [hlk] at hf0ok; simp at hf0ok
    | some t0 =>
      have hmixres := mixFields_deg draws.perm cb.fields draws.boxDraws
        input hok hz
      rw [hf] at hmixres ⊢
      simp only [List.head?_cons, hlk, hmixres]

theorem C10_alpha_zero_noop_witness :
    (∀ d ∈ draws40.boxDraws, ∀ (size : List ℕ) (x1 y1 x2 y2 : ℤ),
        rand_bbox size d.1 d.2.1 d.2.2 = .ok (x1, y1, x2, y2) →
        x1 = x2 ∧ y1 = y2)
    ∧ on_batch_start cbA0 batch4 "cpu" draws40 =
        .ok ({ cbA0 with
            lam := 1
            index := some { vals := draws40.perm, device := "cpu" } }, batch4) :=
  C10_alpha_zero_noop cbA0 batch4 "cpu" draws40 rfl rfl (by decide)
    (of_decide_eq_true (by with_unfolding_all rfl))
    (of_decide_eq_true (by with_unfolding_all rfl))
